import Mathlib

/-
Verification of the task-store logic of `src/App.tsx` (a single-screen
React Native to-do list).  The component state — the pending input
(`task`), the collection (`tasks`), the active edit target
(`editingTask`), the per-task animation map (`animations`) and the
AsyncStorage value under the fixed key `'tasks'` — is embedded as the
structure `AppState`; each handler of the component becomes a state
transformer.  The host `JSON.stringify` / `JSON.parse` pair and the
`Animated` values are platform primitives, not code of this repository:
a stored well-formed serialization of a task array is modelled
structurally by `Stored.tasksJson`, a stored text that `JSON.parse`
rejects by `Stored.malformed`, and the animation map by the list of its
keys (the handles themselves are never inspected beyond
presence).  The fade animation's completion callback in `deleteTask` is
modelled as running synchronously, as the spec treats the fade as a
presentation-layer concern.
-/

namespace TodoApp

/-- The `Task` record of `src/App.tsx`: `{ id: string; text: string; completed: boolean }`. -/
structure Task where
  id : String
  text : String
  completed : Bool
deriving DecidableEq

/-- A value stored by the host under the `'tasks'` key.  `tasksJson ts` stands for
the (non-empty, hence truthy) text `JSON.stringify(ts)`; `malformed` stands for a
non-empty stored text that `JSON.parse` throws on. -/
inductive Stored where
  | tasksJson (ts : List Task)
  | malformed
deriving DecidableEq

/-- The error produced when `JSON.parse` throws inside `loadTasks`. -/
inductive LoadError where
  | deserialization
deriving DecidableEq

/-- The component state of `App`: the four `useState` hooks plus the AsyncStorage
cell (`none` when the `'tasks'` key was never written).  The animation map is
represented by its key list, in `Map` insertion order. -/
structure AppState where
  task : String
  tasks : List Task
  editingTask : Option String
  animations : List String
  storage : Option Stored
deriving DecidableEq

/-- The JS `String.prototype.trim` platform primitive: strips leading and
trailing whitespace. -/
def jsTrim (s : String) : String :=
  ⟨((s.data.dropWhile Char.isWhitespace).reverse.dropWhile Char.isWhitespace).reverse⟩

/-- `Map.set` restricted to the key set: an existing key keeps its position, a
new key is appended. -/
def mapSet (keys : List String) (k : String) : List String :=
  if k ∈ keys then keys else keys ++ [k]

/-- `Map.delete` restricted to the key set. -/
def mapDelete (keys : List String) (k : String) : List String :=
  keys.filter (fun a => a ≠ k)

/-- `saveTasks(tasks)` (line 31): `AsyncStorage.setItem('tasks', JSON.stringify(tasks))`. -/
def saveTasks (ts : List Task) (s : AppState) : AppState :=
  { s with storage := some (Stored.tasksJson ts) }

/-- `addTask` (line 39): guarded by the truthiness of `task.trim()`; builds
`{ id: Date.now().toString(), text: task, completed: false }` (the current clock
value is the `now` argument), appends it, saves, clears the input and registers
an animation handle for the new id. -/
def addTask (now : Nat) (s : AppState) : AppState :=
  if jsTrim s.task ≠ "" then
    let newTask : Task := { id := toString now, text := s.task, completed := false }
    let updatedTasks := s.tasks ++ [newTask]
    { s with
        tasks := updatedTasks
        storage := some (Stored.tasksJson updatedTasks)
        task := ""
        animations := mapSet s.animations newTask.id }
  else s

/-- The per-item mapper of `toggleCompletion`:
`item.id === taskId ? { ...item, completed: !item.completed } : item`. -/
def toggleItem (taskId : String) (item : Task) : Task :=
  if item.id = taskId then { item with completed := !item.completed } else item

/-- `toggleCompletion(taskId)` (line 57): maps over the collection, flipping
`completed` on items whose `id` matches, then saves. -/
def toggleCompletion (taskId : String) (s : AppState) : AppState :=
  let updatedTasks := s.tasks.map (toggleItem taskId)
  { s with
      tasks := updatedTasks
      storage := some (Stored.tasksJson updatedTasks) }

/-- `editTask(taskId)` (line 68): `tasks.find(...)`; when found, loads its text
into the input and records the active edit target. -/
def editTask (taskId : String) (s : AppState) : AppState :=
  match s.tasks.find? (fun item => item.id = taskId) with
  | some taskToEdit => { s with task := taskToEdit.text, editingTask := some taskId }
  | none => s

/-- `updateTask` (line 77): guarded by `task.trim() && editingTask` (an empty
string target would be falsy, hence the `e ≠ ""` conjunct); maps over the
collection replacing `text` on items matching the active target, saves, and
clears both the input and the target. -/
def updateTask (s : AppState) : AppState :=
  match s.editingTask with
  | some e =>
    if jsTrim s.task ≠ "" ∧ e ≠ "" then
      let updatedTasks := s.tasks.map (fun item =>
        if item.id = e then { item with text := s.task } else item)
      { s with
          tasks := updatedTasks
          storage := some (Stored.tasksJson updatedTasks)
          task := ""
          editingTask := none }
    else s
  | none => s

/-- `deleteTask(taskId)` (line 91): guarded by `animations.get(taskId)` (an
`Animated.Value` object is always truthy, so the guard is key presence); the
fade completion callback — run synchronously here — filters the task out, saves,
and deletes the animation entry. -/
def deleteTask (taskId : String) (s : AppState) : AppState :=
  if taskId ∈ s.animations then
    let updatedTasks := s.tasks.filter (fun item => item.id ≠ taskId)
    { s with
        tasks := updatedTasks
        storage := some (Stored.tasksJson updatedTasks)
        animations := mapDelete s.animations taskId }
  else s

/-- The animation map rebuilt by `loadTasks` from the parsed tasks:
`Map.set` per task in order. -/
def buildAnimations (parsedTasks : List Task) : List String :=
  parsedTasks.foldl (fun m t => mapSet m t.id) []

/-- `loadTasks` (line 17): `getItem` returning nothing leaves the state alone
(`if (savedTasks)` fails); a stored text `JSON.parse` rejects makes the whole
operation throw before `setTasks` runs; otherwise the parsed collection replaces
`tasks` and the animation map is rebuilt for every parsed id. -/
def loadTasks (s : AppState) : Except LoadError AppState :=
  match s.storage with
  | none => Except.ok s
  | some Stored.malformed => Except.error LoadError.deserialization
  | some (Stored.tasksJson parsedTasks) =>
      Except.ok { s with tasks := parsedTasks, animations := buildAnimations parsedTasks }

/-- The effect of the `loadTasks()` call in `useEffect`: a rejection aborts the
function with no state hook ever called, so the state is kept as it was. -/
def runLoad (s : AppState) : AppState :=
  match loadTasks s with
  | Except.ok next => next
  | Except.error _ => s

/-- The state at mount: all four hooks at their initial values, over whatever
the storage cell holds. -/
def initState (st : Option Stored) : AppState :=
  { task := "", tasks := [], editingTask := none, animations := [], storage := st }

/-- The state after mount and the initial `loadTasks()` effect. -/
def startup (st : Option Stored) : AppState :=
  runLoad (initState st)

/-- A user intent dispatched by the presentation layer. -/
inductive Op where
  | setInput (text : String)
  | addOp (now : Nat)
  | toggleOp (taskId : String)
  | editOp (taskId : String)
  | commitOp
  | deleteOp (taskId : String)

/-- Dispatch of one intent to the corresponding handler. -/
def step (s : AppState) (op : Op) : AppState :=
  match op with
  | Op.setInput text => { s with task := text }
  | Op.addOp now => addTask now s
  | Op.toggleOp taskId => toggleCompletion taskId s
  | Op.editOp taskId => editTask taskId s
  | Op.commitOp => updateTask s
  | Op.deleteOp taskId => deleteTask taskId s

/-- A sequence of intents applied in order. -/
def run (s : AppState) (ops : List Op) : AppState :=
  ops.foldl step s

/-- The `add(rawText)` intent: the user types `rawText` into the input
(`onChangeText`) and presses the add button. -/
def add (now : Nat) (rawText : String) (s : AppState) : AppState :=
  addTask now { s with task := rawText }

/-- A sequence of `add` intents, each with its clock value and raw text. -/
def addSeq (s : AppState) (calls : List (Nat × String)) : AppState :=
  calls.foldl (fun acc c => add c.1 c.2 acc) s

/-- Every task id in the collection has an entry in the animation map. -/
def animCovered (s : AppState) : Prop :=
  ∀ t ∈ s.tasks, t.id ∈ s.animations

instance (s : AppState) : Decidable (animCovered s) :=
  inferInstanceAs (Decidable (∀ t ∈ s.tasks, t.id ∈ s.animations))

/-- A sample mounted state with one completed task whose edit is in progress,
used to instantiate theorems at concrete inputs. -/
def sampleState : AppState :=
  { task := "Buy oat milk"
    tasks := [{ id := "1", text := "Buy milk", completed := true }]
    editingTask := some "1"
    animations := ["1"]
    storage := none }

/-- C3: with a non-empty trimmed input, `addTask` appends exactly one new task
`{id := toString now, text := rawText, completed := false}` at the end, leaves
the existing tasks unchanged, persists the full updated collection, and clears
the pending input (the edit target is untouched). -/
theorem addTask_appends_new_task (now : Nat) (s : AppState) (h : jsTrim s.task ≠ "") :
    (addTask now s).tasks
        = s.tasks ++ [{ id := toString now, text := s.task, completed := false }]
      ∧ (addTask now s).storage
        = some (Stored.tasksJson
            (s.tasks ++ [{ id := toString now, text := s.task, completed := false }]))
      ∧ (addTask now s).task = ""
      ∧ (addTask now s).editingTask = s.editingTask := by
  simp [addTask, h]

/-- C3 witness: adding "Buy milk" to the empty mounted state at clock 5. -/
theorem addTask_appends_new_task_witness :
    (addTask 5 { initState none with task := "Buy milk" }).tasks
        = [{ id := toString 5, text := "Buy milk", completed := false }]
      ∧ (addTask 5 { initState none with task := "Buy milk" }).task = "" := by
  have h := addTask_appends_new_task 5 { initState none with task := "Buy milk" }
    (by decide)
  exact ⟨by simpa [initState] using h.1, h.2.2.1⟩

/-- C6: when the pending input trims to the empty string, both `addTask` and
`updateTask` leave the whole state — collection, persisted cell, pending input,
edit target — exactly as it was, raising no error. -/
theorem empty_input_add_update_noop (now : Nat) (s : AppState) (h : jsTrim s.task = "") :
    addTask now s = s ∧ updateTask s = s := by
  constructor
  · simp [addTask, h]
  · unfold updateTask
    split
    · simp [h]
    · rfl

/-- C6 witness: a whitespace-only input leaves the state unchanged. -/
theorem empty_input_add_update_noop_witness :
    addTask 7 { initState none with task := "   " } = { initState none with task := "   " }
      ∧ updateTask { initState none with task := "   " }
        = { initState none with task := "   " } :=
  empty_input_add_update_noop 7 { initState none with task := "   " } (by decide)

theorem toggleItem_toggleItem (taskId : String) (item : Task) :
    toggleItem taskId (toggleItem taskId item) = item := by
  by_cases h : item.id = taskId
  · subst h
    simp [toggleItem]
  · simp [toggleItem, h]

theorem map_toggleItem_toggleItem (taskId : String) (ts : List Task) :
    (ts.map (toggleItem taskId)).map (toggleItem taskId) = ts := by
  induction ts with
  | nil => rfl
  | cons a l ih => simp [toggleItem_toggleItem, ih]

theorem map_toggleItem_of_absent (taskId : String) (ts : List Task)
    (h : ∀ t ∈ ts, t.id ≠ taskId) : ts.map (toggleItem taskId) = ts := by
  induction ts with
  | nil => rfl
  | cons a l ih =>
    have ha : a.id ≠ taskId := h a (by simp)
    simp [toggleItem, ha, ih fun t ht => h t (by simp [ht])]

/-- C5: applying `toggleCompletion` twice with the same id restores the
collection exactly; a single application flips `completed` on precisely the
matching items (everything else untouched, order kept); and when no task
matches, a single application leaves the collection unchanged. -/
theorem toggleCompletion_involution (taskId : String) (s : AppState) :
    (toggleCompletion taskId (toggleCompletion taskId s)).tasks = s.tasks
      ∧ (toggleCompletion taskId s).tasks
        = s.tasks.map (fun item =>
            if item.id = taskId then { item with completed := !item.completed } else item)
      ∧ ((∀ t ∈ s.tasks, t.id ≠ taskId) → (toggleCompletion taskId s).tasks = s.tasks) := by
  refine ⟨?_, ?_, ?_⟩
  · show (s.tasks.map (toggleItem taskId)).map (toggleItem taskId) = s.tasks
    exact map_toggleItem_toggleItem taskId s.tasks
  · simp [toggleCompletion, toggleItem]
  · intro h
    show s.tasks.map (toggleItem taskId) = s.tasks
    exact map_toggleItem_of_absent taskId s.tasks h

/-- C5 witness: toggling the only task of the sample state twice restores the
collection, and toggling an id absent from it changes nothing. -/
theorem toggleCompletion_involution_witness :
    (toggleCompletion "1" (toggleCompletion "1" sampleState)).tasks = sampleState.tasks
      ∧ (toggleCompletion "9" sampleState).tasks = sampleState.tasks :=
  ⟨(toggleCompletion_involution "1" sampleState).1,
    (toggleCompletion_involution "9" sampleState).2.2 (by decide)⟩

theorem deleteTask_of_not_mem (taskId : String) (s : AppState)
    (h : taskId ∉ s.animations) : deleteTask taskId s = s := by
  simp [deleteTask, h]

/-- C2: when the animation-handle guard is satisfied (which C9 shows holds for
every id present in a reachable collection), `deleteTask` removes exactly the
tasks whose id matches, keeps every other task in order, persists the filtered
collection, and a second `deleteTask` of the same id leaves the state — in
particular the collection — unchanged. -/
theorem deleteTask_removes_matching (taskId : String) (s : AppState)
    (h : taskId ∈ s.animations) :
    (deleteTask taskId s).tasks = s.tasks.filter (fun item => item.id ≠ taskId)
      ∧ (deleteTask taskId s).storage
        = some (Stored.tasksJson (s.tasks.filter (fun item => item.id ≠ taskId)))
      ∧ (∀ t ∈ s.tasks, t.id ≠ taskId → t ∈ (deleteTask taskId s).tasks)
      ∧ deleteTask taskId (deleteTask taskId s) = deleteTask taskId s := by
  have h1 : (deleteTask taskId s).tasks = s.tasks.filter (fun item => item.id ≠ taskId) := by
    simp [deleteTask, h]
  have h2 : taskId ∉ (deleteTask taskId s).animations := by
    simp [deleteTask, h, mapDelete]
  refine ⟨h1, by simp [deleteTask, h], ?_, deleteTask_of_not_mem _ _ h2⟩
  intro t ht hne
  rw [h1, List.mem_filter]
  exact ⟨ht, by simpa using hne⟩

/-- C2 witness: deleting the only task of the sample state empties the
collection and a repeated delete of the same id is a no-op. -/
theorem deleteTask_removes_matching_witness :
    (deleteTask "1" sampleState).tasks = []
      ∧ deleteTask "1" (deleteTask "1" sampleState) = deleteTask "1" sampleState := by
  have h := deleteTask_removes_matching "1" sampleState (by decide)
  exact ⟨h.1.trans (by decide), h.2.2.2⟩

theorem map_setText_of_absent (taskId newText : String) (ts : List Task)
    (h : ∀ t ∈ ts, t.id ≠ taskId) :
    ts.map (fun item => if item.id = taskId then { item with text := newText } else item)
      = ts := by
  induction ts with
  | nil => rfl
  | cons a l ih =>
    have ha : a.id ≠ taskId := h a (by simp)
    simp [ha, ih fun t ht => h t (by simp [ht])]

/-- C4: with a non-empty trimmed input and `taskId` recorded as the active edit
target, `updateTask` replaces exactly the `text` of the tasks matching
`taskId` — keeping their `id` and `completed` and every other task and the
order untouched — persists the full collection, and clears the pending input
and the active target. -/
theorem updateTask_replaces_text (s : AppState) (taskId : String)
    (he : s.editingTask = some taskId) (ht : jsTrim s.task ≠ "") (hid : taskId ≠ "")
    (hmem : taskId ∈ s.tasks.map Task.id) :
    (updateTask s).tasks
        = s.tasks.map (fun item =>
            if item.id = taskId then { item with text := s.task } else item)
      ∧ (updateTask s).storage
        = some (Stored.tasksJson
            (s.tasks.map (fun item =>
              if item.id = taskId then { item with text := s.task } else item)))
      ∧ (∀ t ∈ s.tasks, t.id = taskId →
          ({ t with text := s.task } : Task) ∈ (updateTask s).tasks)
      ∧ (∀ t ∈ s.tasks, t.id ≠ taskId → t ∈ (updateTask s).tasks)
      ∧ (updateTask s).task = "" ∧ (updateTask s).editingTask = none := by
  have hstate : updateTask s
      = { s with
            tasks := s.tasks.map (fun item =>
              if item.id = taskId then { item with text := s.task } else item)
            storage := some (Stored.tasksJson
              (s.tasks.map (fun item =>
                if item.id = taskId then { item with text := s.task } else item)))
            task := ""
            editingTask := none } := by
    unfold updateTask
    rw [he]
    simp [ht, hid]
  refine ⟨by rw [hstate], by rw [hstate], ?_, ?_, by rw [hstate], by rw [hstate]⟩
  · intro t ht' heq
    rw [hstate]
    have hft : (fun item : Task =>
        if item.id = taskId then { item with text := s.task } else item) t
          = { t with text := s.task } := by simp [heq]
    exact hft ▸ List.mem_map_of_mem _ ht'
  · intro t ht' hne
    rw [hstate]
    have hft : (fun item : Task =>
        if item.id = taskId then { item with text := s.task } else item) t = t := by
      simp [hne]
    exact hft ▸ List.mem_map_of_mem _ ht'

/-- C4 witness: committing "Buy oat milk" over the sample edit target replaces
the text while keeping id and completion, and clears the pending-edit state. -/
theorem updateTask_replaces_text_witness :
    (updateTask sampleState).tasks
        = [{ id := "1", text := "Buy oat milk", completed := true }]
      ∧ (updateTask sampleState).task = ""
      ∧ (updateTask sampleState).editingTask = none := by
  have h := updateTask_replaces_text sampleState "1" rfl (by decide) (by decide) (by decide)
  exact ⟨h.1.trans (by decide), h.2.2.2.2.1, h.2.2.2.2.2⟩

/-- C10: committing a non-empty edit whose active target id matches no task
leaves the collection element-for-element unchanged, still writes the unchanged
collection to persistence, and clears the pending input and the active edit
target. -/
theorem updateTask_stale_target (s : AppState) (taskId : String)
    (he : s.editingTask = some taskId) (ht : jsTrim s.task ≠ "") (hid : taskId ≠ "")
    (habs : ∀ t ∈ s.tasks, t.id ≠ taskId) :
    (updateTask s).tasks = s.tasks
      ∧ (updateTask s).storage = some (Stored.tasksJson s.tasks)
      ∧ (updateTask s).task = "" ∧ (updateTask s).editingTask = none := by
  have hmap := map_setText_of_absent taskId s.task s.tasks habs
  have hstate : updateTask s
      = { s with
            tasks := s.tasks
            storage := some (Stored.tasksJson s.tasks)
            task := ""
            editingTask := none } := by
    unfold updateTask
    rw [he]
    simp [ht, hid, hmap]
  exact ⟨by rw [hstate], by rw [hstate], by rw [hstate], by rw [hstate]⟩

/-- A state whose active edit target ("1") matches no task in the collection. -/
def staleEditState : AppState :=
  { task := "New text"
    tasks := [{ id := "2", text := "Keep", completed := false }]
    editingTask := some "1"
    animations := ["2"]
    storage := none }

/-- C10 witness: committing over a deleted target id leaves the single
unrelated task in place, persists it, and returns the edit flow to idle. -/
theorem updateTask_stale_target_witness :
    (updateTask staleEditState).tasks = [{ id := "2", text := "Keep", completed := false }]
      ∧ (updateTask staleEditState).editingTask = none := by
  have h := updateTask_stale_target staleEditState "1" rfl (by decide) (by decide) (by decide)
  exact ⟨h.1, h.2.2.2⟩

/-- C7: writing a collection through `saveTasks` and then running `loadTasks`
restores exactly that collection — same elements, same order, same field
values — and rebuilds the animation map from it. -/
theorem load_after_save_roundtrip (ts : List Task) (s : AppState) :
    loadTasks (saveTasks ts s)
        = Except.ok { saveTasks ts s with tasks := ts, animations := buildAnimations ts }
      ∧ ∀ s2, loadTasks (saveTasks ts s) = Except.ok s2 → s2.tasks = ts := by
  constructor
  · rfl
  · intro s2 h2
    have h0 : loadTasks (saveTasks ts s)
        = Except.ok { saveTasks ts s with tasks := ts, animations := buildAnimations ts } := rfl
    have h3 := Except.ok.inj (h0.symm.trans h2)
    rw [← h3]

/-- C7 witness: saving the sample collection and running the load effect
restores exactly that collection. -/
theorem load_after_save_roundtrip_witness :
    (runLoad (saveTasks sampleState.tasks (initState none))).tasks = sampleState.tasks := by
  have h := load_after_save_roundtrip sampleState.tasks (initState none)
  exact h.2 _ (by rfl)

/-- C8: a missing persisted value makes `loadTasks` succeed without touching
the state (the mounted collection stays empty); a malformed persisted payload
makes the whole load fail with a deserialization error, and the effect keeps
the state exactly as it was — nothing is recovered piecemeal. -/
theorem loadTasks_empty_and_malformed (s : AppState) :
    (s.storage = none → loadTasks s = Except.ok s ∧ runLoad s = s)
      ∧ (s.storage = some Stored.malformed →
          loadTasks s = Except.error LoadError.deserialization ∧ runLoad s = s)
      ∧ (startup none).tasks = [] := by
  refine ⟨fun h => ⟨?_, ?_⟩, fun h => ⟨?_, ?_⟩, rfl⟩
  · simp [loadTasks, h]
  · simp [runLoad, loadTasks, h]
  · simp [loadTasks, h]
  · simp [runLoad, loadTasks, h]

/-- C8 witness: a malformed stored payload fails the load at the mounted state,
and an absent one leaves the mounted state untouched. -/
theorem loadTasks_empty_and_malformed_witness :
    loadTasks (initState (some Stored.malformed)) = Except.error LoadError.deserialization
      ∧ runLoad (initState none) = initState none :=
  ⟨((loadTasks_empty_and_malformed (initState (some Stored.malformed))).2.1 rfl).1,
    ((loadTasks_empty_and_malformed (initState none)).1 rfl).2⟩

theorem addSeq_tasks_ids : ∀ (calls : List (Nat × String)) (s : AppState),
    (∀ c ∈ calls, jsTrim c.2 ≠ "") →
    (addSeq s calls).tasks.map Task.id
      = s.tasks.map Task.id ++ calls.map (fun c => toString c.1) := by
  intro calls
  induction calls with
  | nil => intro s _; simp [addSeq]
  | cons c l ih =>
    intro s htxt
    have hc : jsTrim c.2 ≠ "" := htxt c (by simp)
    have hstep : (add c.1 c.2 s).tasks
        = s.tasks ++ [{ id := toString c.1, text := c.2, completed := false }] := by
      simp [add, addTask, hc]
    have hrec := ih (add c.1 c.2 s) (fun c2 hc2 => htxt c2 (by simp [hc2]))
    show (addSeq (add c.1 c.2 s) l).tasks.map Task.id = _
    rw [hrec, hstep]
    simp

/-- C1: any sequence of `add` intents whose texts are non-empty after trimming
grows the collection by exactly the number of calls, and — given that the
time-based id source yields fresh values (strictly increasing clocks, so the
generated id strings and the pre-existing ids are pairwise distinct) — the ids
in the collection are pairwise distinct after every prefix of the sequence. -/
theorem addSeq_length_and_distinct_ids (s : AppState) (calls : List (Nat × String))
    (htxt : ∀ c ∈ calls, jsTrim c.2 ≠ "")
    (hfresh : (s.tasks.map Task.id ++ calls.map (fun c => toString c.1)).Nodup) :
    (addSeq s calls).tasks.length = s.tasks.length + calls.length
      ∧ ∀ k, ((addSeq s (calls.take k)).tasks.map Task.id).Nodup := by
  constructor
  · have h := addSeq_tasks_ids calls s htxt
    have h2 := congrArg List.length h
    simpa using h2
  · intro k
    have htxtk : ∀ c ∈ calls.take k, jsTrim c.2 ≠ "" :=
      fun c hc => htxt c (List.mem_of_mem_take hc)
    rw [addSeq_tasks_ids (calls.take k) s htxtk]
    refine List.Nodup.sublist ?_ hfresh
    exact ((List.take_sublist k calls).map _).append_left _

/-- C1 witness: two adds with fresh clock ids on the empty mounted state give a
two-element collection with pairwise distinct ids. -/
theorem addSeq_length_and_distinct_ids_witness :
    (addSeq (initState none) [(1, "A"), (2, "B")]).tasks.length = 2
      ∧ ((addSeq (initState none) [(1, "A"), (2, "B")]).tasks.map Task.id).Nodup := by
  have h := addSeq_length_and_distinct_ids (initState none) [(1, "A"), (2, "B")]
    (by decide) (by decide)
  refine ⟨by simpa [initState] using h.1, ?_⟩
  have h2 := h.2 2
  simpa using h2

theorem mem_mapSet_self (keys : List String) (k : String) : k ∈ mapSet keys k := by
  unfold mapSet
  split
  · assumption
  · simp

theorem mem_mapSet_of_mem (keys : List String) (k a : String) (h : a ∈ keys) :
    a ∈ mapSet keys k := by
  unfold mapSet
  split
  · exact h
  · simp [h]

theorem mem_mapDelete (keys : List String) (k a : String) (h : a ∈ keys) (hne : a ≠ k) :
    a ∈ mapDelete keys k := by
  unfold mapDelete
  rw [List.mem_filter]
  exact ⟨h, by simpa using hne⟩

theorem foldl_mapSet_mem : ∀ (ts : List Task) (acc : List String) (a : String),
    (a ∈ acc ∨ ∃ t ∈ ts, t.id = a) → a ∈ ts.foldl (fun m t => mapSet m t.id) acc := by
  intro ts
  induction ts with
  | nil =>
    intro acc a h
    rcases h with h | ⟨t, ht, _⟩
    · exact h
    · exact absurd ht (List.not_mem_nil t)
  | cons x l ih =>
    intro acc a h
    simp only [List.foldl_cons]
    apply ih
    rcases h with h | ⟨t, ht, hta⟩
    · exact Or.inl (mem_mapSet_of_mem acc x.id a h)
    · rcases List.mem_cons.mp ht with rfl | htl
      · exact Or.inl (hta ▸ mem_mapSet_self acc t.id)
      · exact Or.inr ⟨t, htl, hta⟩

theorem mem_buildAnimations (ts : List Task) (t : Task) (h : t ∈ ts) :
    t.id ∈ buildAnimations ts :=
  foldl_mapSet_mem ts [] t.id (Or.inr ⟨t, h, rfl⟩)

theorem animCovered_of_ids (s s2 : AppState) (hanim : s2.animations = s.animations)
    (hids : s2.tasks.map Task.id = s.tasks.map Task.id) (h : animCovered s) :
    animCovered s2 := by
  intro t ht
  have hmm2 : t.id ∈ s2.tasks.map Task.id := List.mem_map_of_mem _ ht
  rw [hids] at hmm2
  rcases List.mem_map.mp hmm2 with ⟨u, hu, heq⟩
  rw [hanim, ← heq]
  exact h u hu

theorem map_id_map_toggleItem (taskId : String) (ts : List Task) :
    (ts.map (toggleItem taskId)).map Task.id = ts.map Task.id := by
  induction ts with
  | nil => rfl
  | cons a l ih =>
    have ha : (toggleItem taskId a).id = a.id := by
      unfold toggleItem
      split <;> rfl
    simp [ha, ih]

theorem map_id_map_setText (e newText : String) (ts : List Task) :
    (ts.map (fun item =>
        if item.id = e then { item with text := newText } else item)).map Task.id
      = ts.map Task.id := by
  induction ts with
  | nil => rfl
  | cons a l ih =>
    have ha : ((fun item : Task =>
        if item.id = e then { item with text := newText } else item) a).id = a.id := by
      by_cases h : a.id = e <;> simp [h]
    simp only [List.map_cons, ha, ih]

theorem updateTask_preserves_ids (s : AppState) :
    (updateTask s).animations = s.animations
      ∧ (updateTask s).tasks.map Task.id = s.tasks.map Task.id := by
  obtain ⟨tk, ts, et, an, st⟩ := s
  cases et with
  | none => exact ⟨rfl, rfl⟩
  | some e =>
    by_cases hc : jsTrim tk ≠ "" ∧ e ≠ ""
    · constructor
      · simp only [updateTask]
        rw [if_pos hc]
      · simp only [updateTask]
        rw [if_pos hc]
        exact map_id_map_setText e tk ts
    · constructor
      · simp only [updateTask, if_neg hc]
      · simp only [updateTask, if_neg hc]

theorem animCovered_step (s : AppState) (op : Op) (h : animCovered s) :
    animCovered (step s op) := by
  cases op with
  | setInput text => exact fun t ht => h t ht
  | addOp now =>
    intro t ht
    by_cases hc : jsTrim s.task ≠ ""
    · simp only [step, addTask, if_pos hc] at ht ⊢
      simp only [List.mem_append, List.mem_singleton] at ht
      rcases ht with h1 | rfl
      · exact mem_mapSet_of_mem _ _ _ (h t h1)
      · exact mem_mapSet_self _ _
    · simp only [step, addTask, if_neg hc] at ht ⊢
      exact h t ht
  | toggleOp taskId =>
    exact animCovered_of_ids s (step s (Op.toggleOp taskId)) rfl
      (map_id_map_toggleItem taskId s.tasks) h
  | editOp taskId =>
    intro t ht
    simp only [step, editTask] at ht ⊢
    cases hfind : s.tasks.find? (fun item => item.id = taskId) with
    | none =>
      rw [hfind] at ht
      exact h t ht
    | some u =>
      rw [hfind] at ht
      exact h t ht
  | commitOp =>
    have hp := updateTask_preserves_ids s
    exact animCovered_of_ids s (step s Op.commitOp) hp.1 hp.2 h
  | deleteOp taskId =>
    intro t ht
    by_cases hc : taskId ∈ s.animations
    · simp only [step, deleteTask, if_pos hc] at ht ⊢
      rw [List.mem_filter] at ht
      obtain ⟨ht1, ht2⟩ := ht
      have hne : t.id ≠ taskId := by simpa using ht2
      exact mem_mapDelete _ _ _ (h t ht1) hne
    · simp only [step, deleteTask, if_neg hc] at ht ⊢
      exact h t ht

theorem animCovered_run (ops : List Op) : ∀ s, animCovered s → animCovered (run s ops) := by
  induction ops with
  | nil => exact fun s h => h
  | cons op l ih => exact fun s h => ih (step s op) (animCovered_step s op h)

theorem animCovered_startup (st : Option Stored) : animCovered (startup st) := by
  cases st with
  | none =>
    intro t ht
    simp [startup, runLoad, loadTasks, initState] at ht
  | some v =>
    cases v with
    | malformed =>
      intro t ht
      simp [startup, runLoad, loadTasks, initState] at ht
    | tasksJson ts =>
      intro t ht
      exact mem_buildAnimations ts t ht

/-- C9: in every state reachable from a mounted state (empty, or restored by
the initial load) through any sequence of intents, every task id in the
collection has an entry in the animation map; hence the animation-handle guard
at the start of `deleteTask` is satisfied for every id present in the
collection. -/
theorem reachable_states_animations_cover (st : Option Stored) (ops : List Op) :
    animCovered (run (startup st) ops)
      ∧ ∀ taskId, taskId ∈ (run (startup st) ops).tasks.map Task.id →
          taskId ∈ (run (startup st) ops).animations := by
  have hcov := animCovered_run ops (startup st) (animCovered_startup st)
  refine ⟨hcov, ?_⟩
  intro taskId hmm2
  rcases List.mem_map.mp hmm2 with ⟨u, hu, rfl⟩
  exact hcov u hu

/-- C9 witness: after typing "A" and adding it at clock 1 from the empty
mounted state, the new task's id has an animation handle, so its delete guard
is satisfied. -/
theorem reachable_states_animations_cover_witness :
    toString 1 ∈ (run (startup none) [Op.setInput "A", Op.addOp 1]).animations :=
  (reachable_states_animations_cover none [Op.setInput "A", Op.addOp 1]).2
    (toString 1) (by decide)

end TodoApp
